import Mathlib

/-!
Verification development for the hydrator batch build pipeline.

The definitions below are a shallow embedding of the pipeline code:

* HydratorStatus, setFailure       -- types.py HydratorStatus, hydration.py BaseHydrator._set_failure
* validateStep                     -- hydration.py BaseHydrator._validate
* hydrateStep, runFrom, runUnit    -- hydration.py BaseHydrator._hydrate / run
* resolveOverlay                   -- hydration.py BaseHydrator.__init__ overlay resolution
* seqScheduler, workerLoop         -- cli.py BaseCli._hydrate (workers == 0) and _hydration_worker
* processRun                       -- process.py Process.run
* check_config, processRows        -- util.py check_config, cli.py BaseCli._process_sot_file
* generate_key, get_path,
  split_manifest                   -- krm.py K8sResourceParser, hydration.py _split_manifest

External library calls (json.dumps with sorted keys, hashlib sha256) are
passed in as function parameters; file system and subprocess effects are
represented by explicit outcome values and event traces.
-/

/-- Status record of one hydration unit, mirroring the HydratorStatus
dataclass: six boolean stage outcomes, each defaulting to success. -/
structure HydratorStatus where
  hydrator_ok : Bool := true
  split_ok : Bool := true
  jinja_ok : Bool := true
  kustomize_ok : Bool := true
  validators_ok : Bool := true
  publish_ok : Bool := true
deriving DecidableEq, Repr

/-- A fresh HydratorStatus with every stage flag at its default. -/
def HydratorStatus.init : HydratorStatus := {}

/-- Truth value of a HydratorStatus, mirroring its dunder bool method:
the conjunction over all six stage flags. -/
def statusBool (s : HydratorStatus) : Bool :=
  s.hydrator_ok && s.split_ok && s.jinja_ok && s.kustomize_ok &&
    s.validators_ok && s.publish_ok

/-- Keyword arguments of BaseHydrator._set_failure: which stages to mark
failed.  Every flag defaults to false, as in the Python signature. -/
structure FailFlags where
  hydrator : Bool := false
  jinja : Bool := false
  kustomize : Bool := false
  split : Bool := false
  validator : Bool := false
  publish : Bool := false
deriving DecidableEq, Repr

/-- BaseHydrator._set_failure: each requested stage flag is set to False;
flags not requested keep their value. -/
def setFailure (s : HydratorStatus) (f : FailFlags) : HydratorStatus where
  hydrator_ok := if f.hydrator then false else s.hydrator_ok
  jinja_ok := if f.jinja then false else s.jinja_ok
  kustomize_ok := if f.kustomize then false else s.kustomize_ok
  split_ok := if f.split then false else s.split_ok
  validators_ok := if f.validator then false else s.validators_ok
  publish_ok := if f.publish then false else s.publish_ok

/-- Boolean implication: a is at most b in the order false < true. -/
def bleB (a b : Bool) : Bool := !a || b

/-- Pointwise comparison of two status records: the left one is at most
the right one on every stage flag (failure only grows). -/
def statusLeB (a b : HydratorStatus) : Bool :=
  bleB a.hydrator_ok b.hydrator_ok && bleB a.split_ok b.split_ok &&
    bleB a.jinja_ok b.jinja_ok && bleB a.kustomize_ok b.kustomize_ok &&
    bleB a.validators_ok b.validators_ok && bleB a.publish_ok b.publish_ok

/-- Loop body of BaseHydrator._validate: every validator in the list is
run and appended to the validated list, and a failure flag accumulates
whether any validator reported invalid.  A validator here is represented
by the valid flag its run produced. -/
def validateLoop : List Bool → List Bool × Bool
  | [] => ([], false)
  | v :: rest =>
    let r := validateLoop rest
    (v :: r.1, (!v) || r.2)

/-- BaseHydrator._validate: with no rendered manifest it returns at once;
otherwise it runs every configured validator, collects them into the
validated list, and marks the validator stage failed when at least one
reported invalid. -/
def validateStep (rendered : Bool) (vs : List Bool) (s : HydratorStatus) :
    HydratorStatus × List Bool :=
  if rendered = false then (s, [])
  else
    let r := validateLoop vs
    (if r.2 then setFailure s { validator := true } else s, r.1)

lemma bleB_setFailure_field (c x : Bool) : bleB (if c then false else x) x = true := by
  cases c <;> cases x <;> rfl

lemma bleB_trans {x y z : Bool} (h1 : bleB x y = true) (h2 : bleB y z = true) :
    bleB x z = true := by
  cases x <;> cases y <;> cases z <;> simp_all [bleB]

lemma statusLeB_refl (s : HydratorStatus) : statusLeB s s = true := by
  simp [statusLeB, bleB]

lemma statusLeB_trans {a b c : HydratorStatus} (h1 : statusLeB a b = true)
    (h2 : statusLeB b c = true) : statusLeB a c = true := by
  simp only [statusLeB, Bool.and_eq_true] at h1 h2 ⊢
  exact ⟨⟨⟨⟨⟨bleB_trans h1.1.1.1.1.1 h2.1.1.1.1.1, bleB_trans h1.1.1.1.1.2 h2.1.1.1.1.2⟩,
    bleB_trans h1.1.1.1.2 h2.1.1.1.2⟩, bleB_trans h1.1.1.2 h2.1.1.2⟩,
    bleB_trans h1.1.2 h2.1.2⟩, bleB_trans h1.2 h2.2⟩

lemma bleB_mask (c x : Bool) : bleB (!c && x) x = true := by
  cases c <;> cases x <;> rfl

lemma setFailure_le (s : HydratorStatus) (f : FailFlags) :
    statusLeB (setFailure s f) s = true := by
  simp only [statusLeB, setFailure, Bool.and_eq_true]
  refine ⟨⟨⟨⟨⟨?_, ?_⟩, ?_⟩, ?_⟩, ?_⟩, ?_⟩ <;> exact bleB_setFailure_field _ _

lemma validateStep_le (r : Bool) (vs : List Bool) (s : HydratorStatus) :
    statusLeB (validateStep r vs s).1 s = true := by
  unfold validateStep
  split
  · exact statusLeB_refl s
  · dsimp only
    split
    · exact setFailure_le s _
    · exact statusLeB_refl s

lemma validateLoop_eq (vs : List Bool) :
    validateLoop vs = (vs, vs.any fun v => !v) := by
  induction vs with
  | nil => rfl
  | cons v rest ih => simp [validateLoop, ih, List.any_cons]

/-- Claim C2: a HydratorStatus consists of six boolean stage outcomes that
all default to True, and its overall boolean value is true exactly when
every one of the six flags is true. -/
theorem claim_C2_status_conjunction (s : HydratorStatus) :
    (statusBool s = true ↔
      (s.hydrator_ok = true ∧ s.split_ok = true ∧ s.jinja_ok = true ∧
        s.kustomize_ok = true ∧ s.validators_ok = true ∧ s.publish_ok = true)) ∧
    HydratorStatus.init.hydrator_ok = true ∧ HydratorStatus.init.split_ok = true ∧
    HydratorStatus.init.jinja_ok = true ∧ HydratorStatus.init.kustomize_ok = true ∧
    HydratorStatus.init.validators_ok = true ∧ HydratorStatus.init.publish_ok = true := by
  refine ⟨?_, rfl, rfl, rfl, rfl, rfl, rfl⟩
  simp [statusBool, Bool.and_eq_true, and_assoc]

/-- Claim C7: with a rendered manifest present, the validation stage runs
every configured validator (the validated list is the whole configured
list, no short-circuit), and the validators stage flag ends up false
exactly when some validator reported invalid. -/
theorem claim_C7_validators_no_short_circuit (vs : List Bool) (s : HydratorStatus)
    (hs : s.validators_ok = true) :
    (validateStep true vs s).2 = vs ∧
    ((validateStep true vs s).1.validators_ok = false ↔ false ∈ vs) := by
  have hloop := validateLoop_eq vs
  have hmemiff : ((vs.any fun v => !v) = true) ↔ false ∈ vs := by
    rw [List.any_eq_true]
    constructor
    · rintro ⟨v, hv, hnv⟩
      have hv0 : v = false := by cases v <;> simp_all
      exact hv0 ▸ hv
    · intro hmem; exact ⟨false, hmem, by decide⟩
  refine ⟨by simp [validateStep, hloop], ?_⟩
  by_cases hany : (vs.any fun v => !v) = true
  · have heq : (validateStep true vs s).1 = setFailure s { validator := true } := by
      simp [validateStep, hloop, hany]
    rw [heq]
    constructor
    · intro _; exact hmemiff.mp hany
    · intro _; simp [setFailure]
  · have hf : (vs.any fun v => !v) = false := by
      revert hany; cases (vs.any fun v => !v) <;> simp
    have heq : (validateStep true vs s).1 = s := by
      simp [validateStep, hloop, hf]
    rw [heq]
    constructor
    · intro hcontra; rw [hs] at hcontra; cases hcontra
    · intro hmem; exact absurd (hmemiff.mpr hmem) hany

/-- Witness for claim C7 at a concrete validator list with one failure. -/
theorem claim_C7_witness :
    (validateStep true [true, false, true] HydratorStatus.init).2 = [true, false, true] ∧
    ((validateStep true [true, false, true] HydratorStatus.init).1.validators_ok = false ↔
      false ∈ [true, false, true]) :=
  claim_C7_validators_no_short_circuit [true, false, true] HydratorStatus.init rfl

/-- Outcome of BaseHydrator._process_dirs as observed by the CliWarning
handler in _hydrate: success, a warning caused by a Jinja template error,
a warning caused by a YAML error, or a warning with another cause (which
sets no stage flag). -/
inductive ProcDirsOutcome
  | ok
  | jinjaErr
  | yamlErr
  | otherWarn
deriving DecidableEq, Repr, BEq

/-- Outcome of the kustomize subprocess in _run_kustomize: success, the
binary missing from the path (Process.run raises a CliWarning, turned
into a CliError), or a non-zero exit code. -/
inductive KustomizeOutcome
  | ok
  | binMissing
  | exitNonzero
deriving DecidableEq, Repr, BEq

/-- Outcome of _split_manifest: success, the rendered manifest file
missing, or an unexpected exception; both failure cases mark the split
stage failed and raise a CliError. -/
inductive SplitOutcome
  | ok
  | fileMissing
  | unexpectedErr
deriving DecidableEq, Repr, BEq

/-- Python exception classes that cross the boundaries modelled here. -/
inductive PyExc
  | cliWarning
  | cliError
  | keyError
  | indexError
  | attrError
deriving DecidableEq, Repr, BEq

/-- Externally visible side effects of one unit run. -/
inductive UnitAction
  | kustomizeBuild
  | splitManifests
  | runValidators
  | publishOci
deriving DecidableEq, Repr, BEq

/-- Environment of one hydration unit: the outcome each external effect
would have if reached.  The run model consults these instead of touching
a file system or subprocesses. -/
structure UnitEnv where
  overlayResolved : Bool
  procDirs : ProcDirsOutcome
  kustomize : KustomizeOutcome
  splitOutput : Bool
  split : SplitOutcome
  validators : List Bool
  ociConfigured : Bool
  publishOk : Bool
deriving DecidableEq, Repr

/-- BaseHydrator._hydrate: raises CliWarning when no overlay resolved;
catches CliWarnings from copying/templating and maps their cause to a
stage flag; runs kustomize (raising CliError when the process layer
warned, or marking the stage failed on a non-zero exit); splits the
output when requested and kustomize succeeded.  Returns the updated
status, the actions performed, and the exception escaping, if any. -/
def hydrateStep (env : UnitEnv) (s : HydratorStatus) :
    HydratorStatus × List UnitAction × Option PyExc :=
  if env.overlayResolved = false then (s, [], some .cliWarning)
  else
    match env.procDirs with
    | .jinjaErr => (setFailure s { jinja := true }, [], none)
    | .yamlErr => (setFailure s { split := true }, [], none)
    | .otherWarn => (s, [], none)
    | .ok =>
      match env.kustomize with
      | .binMissing => (setFailure s { kustomize := true }, [.kustomizeBuild], some .cliError)
      | .exitNonzero => (setFailure s { kustomize := true }, [.kustomizeBuild], none)
      | .ok =>
        if env.splitOutput then
          match env.split with
          | .ok => (s, [.kustomizeBuild, .splitManifests], none)
          | .fileMissing =>
            (setFailure s { split := true }, [.kustomizeBuild, .splitManifests], some .cliError)
          | .unexpectedErr =>
            (setFailure s { split := true }, [.kustomizeBuild, .splitManifests], some .cliError)
        else (s, [.kustomizeBuild], none)

/-- Result of one unit run: final status, actions performed, validators
run, and the exception escaping the run method, if any. -/
structure RunResult where
  status : HydratorStatus
  actions : List UnitAction
  validated : List Bool
  exc : Option PyExc
deriving DecidableEq, Repr

/-- Publish block at the end of BaseHydrator.run: publishing is attempted
only when the whole status is truthy and an OCI client is configured; a
CliWarning from publishing marks the publish stage failed.  When the
publish block is reached without the hydration destination having been
set (process_dirs returned early on a warning with an unclassified
cause), the attribute access raises. -/
def finishPublish (env : UnitEnv) (rendered : Bool) (s : HydratorStatus)
    (acts : List UnitAction) (validated : List Bool) : RunResult :=
  if statusBool s && env.ociConfigured then
    if rendered = false then ⟨s, acts, validated, some .attrError⟩
    else if env.publishOk then ⟨s, acts ++ [.publishOci], validated, none⟩
    else ⟨setFailure s { publish := true }, acts ++ [.publishOci], validated, none⟩
  else ⟨s, acts, validated, none⟩

/-- BaseHydrator.run starting from an arbitrary status: _hydrate with its
CliWarning caught as a hydrator-stage failure, then validation gated on
the jinja, kustomize and split flags, then the publish block.  A CliError
escaping _hydrate escapes run as well.  The rendered manifest path is set
exactly when _run_kustomize was reached. -/
def runFrom (env : UnitEnv) (s0 : HydratorStatus) : RunResult :=
  let h := hydrateStep env s0
  match h.2.2 with
  | some .cliWarning => ⟨setFailure h.1 { hydrator := true }, h.2.1, [], none⟩
  | some e => ⟨h.1, h.2.1, [], some e⟩
  | none =>
    let rendered := env.overlayResolved && (env.procDirs == .ok)
    if h.1.jinja_ok && h.1.kustomize_ok && h.1.split_ok then
      let v := validateStep rendered env.validators h.1
      finishPublish env rendered v.1
        (if rendered then h.2.1 ++ [.runValidators] else h.2.1) v.2
    else finishPublish env rendered h.1 h.2.1 []

/-- BaseHydrator.run on the fresh status a unit is constructed with. -/
def runUnit (env : UnitEnv) : RunResult := runFrom env HydratorStatus.init

/-- Which overlay a unit resolves to. -/
inductive OverlayChoice
  | groupDir
  | defaultDir
deriving DecidableEq, Repr

/-- Overlay resolution in BaseHydrator.__init__: the overlay subdirectory
named after the item group when it exists, else the configured default
overlay when that is a non-empty name and its directory exists, else no
overlay at all (logged as a warning). -/
def resolveOverlay (groupDirExists : Bool) (defaultOverlay : Option String)
    (defaultDirExists : Bool) : Option OverlayChoice :=
  if groupDirExists then some .groupDir
  else
    match defaultOverlay with
    | some d => if d ≠ "" && defaultDirExists then some .defaultDir else none
    | none => none

/-- Sequential scheduler (workers == 0) in BaseCli._hydrate: each unit is
run to completion before the next; nothing catches an exception escaping
a unit run, so it aborts the loop and the remaining units never run. -/
def seqScheduler : List UnitEnv → List RunResult × Option PyExc
  | [] => ([], none)
  | u :: us =>
    let r := runUnit u
    match r.exc with
    | some e => ([r], some e)
    | none =>
      let rest := seqScheduler us
      (r :: rest.1, rest.2)

/-- Pooled worker loop in BaseCli._hydration_worker: each dequeued unit
is run inside a try block whose generic except clause logs the exception
and continues, so every unit the worker dequeues is processed. -/
def workerLoop : List UnitEnv → List RunResult
  | [] => []
  | u :: us => runUnit u :: workerLoop us

lemma finishPublish_le (env : UnitEnv) (r : Bool) (s : HydratorStatus)
    (acts : List UnitAction) (vd : List Bool) :
    statusLeB (finishPublish env r s acts vd).status s = true := by
  unfold finishPublish
  split
  · split
    · exact statusLeB_refl s
    · split
      · exact statusLeB_refl s
      · exact setFailure_le s _
  · exact statusLeB_refl s

lemma hydrateStep_le (env : UnitEnv) (s : HydratorStatus) :
    statusLeB (hydrateStep env s).1 s = true := by
  obtain ⟨ov, pd, ku, so, sp, vs, oc, pu⟩ := env
  cases ov <;> cases pd <;> cases ku <;> cases so <;> cases sp <;>
    simp [hydrateStep, setFailure_le, statusLeB_refl]

set_option maxHeartbeats 1000000 in
lemma runFrom_le (env : UnitEnv) (s0 : HydratorStatus) :
    statusLeB (runFrom env s0).status s0 = true := by
  have hh := hydrateStep_le env s0
  simp only [runFrom]
  generalize hg : hydrateStep env s0 = h at hh ⊢
  obtain ⟨s1, acts, exc⟩ := h
  simp only at hh
  rcases exc with _ | e
  · dsimp only
    split
    · exact statusLeB_trans
        (statusLeB_trans (finishPublish_le env _ _ _ _) (validateStep_le _ _ _)) hh
    · exact statusLeB_trans (finishPublish_le env _ _ _ _) hh
  · cases e <;> dsimp only <;>
      first
        | exact statusLeB_trans (setFailure_le _ _) hh
        | exact hh

/-- Claim C10: failure recording is monotone.  _set_failure only moves
stage flags from true to false, and a whole unit run started from any
status never raises a flag back from false to true, so a recorded stage
failure persists into the final report. -/
theorem claim_C10_status_monotone (s : HydratorStatus) (f : FailFlags)
    (env : UnitEnv) (s0 : HydratorStatus) :
    statusLeB (setFailure s f) s = true ∧
    statusLeB (runFrom env s0).status s0 = true :=
  ⟨setFailure_le s f, runFrom_le env s0⟩

/-- Claim C4: overlay resolution prefers the group subdirectory and falls
back to the default overlay only when the group one is missing; when
neither resolves, the unit resolves to no overlay, its run marks the
hydrator (pre-flight) stage failed, invokes no kustomize build, and lets
no exception escape (a warning, not a run-level error). -/
theorem claim_C4_missing_overlay_preflight (ge de : Bool) (dov : Option String)
    (env : UnitEnv)
    (henv : env.overlayResolved = (resolveOverlay ge dov de).isSome) :
    (resolveOverlay ge dov de = none →
      (runUnit env).status.hydrator_ok = false ∧
      UnitAction.kustomizeBuild ∉ (runUnit env).actions ∧
      (runUnit env).exc = none) ∧
    (ge = true → resolveOverlay ge dov de = some .groupDir) ∧
    (∀ d, ge = false → dov = some d → d ≠ "" → de = true →
      resolveOverlay ge dov de = some .defaultDir) ∧
    (ge = false → (dov = none ∨ dov = some "" ∨ de = false) →
      resolveOverlay ge dov de = none) := by
  refine ⟨?_, ?_, ?_, ?_⟩
  · intro hnone
    have hov : env.overlayResolved = false := by rw [henv, hnone]; rfl
    refine ⟨?_, ?_, ?_⟩ <;> simp [runUnit, runFrom, hydrateStep, hov, setFailure]
  · intro hge; simp [resolveOverlay, hge]
  · intro d hge hdov hdne hde; simp [resolveOverlay, hge, hdov, hdne, hde]
  · intro hge hcase
    rcases hcase with h | h | h
    · simp [resolveOverlay, hge, h]
    · simp [resolveOverlay, hge, h]
    · cases dov <;> simp [resolveOverlay, hge, h]

/-- Witness unit with no resolvable overlay. -/
def envNoOverlay : UnitEnv :=
  ⟨false, .ok, .ok, false, .ok, [], false, true⟩

/-- Witness for claim C4 at a concrete unit whose group overlay and
default overlay are both absent. -/
theorem claim_C4_witness :
    (runUnit envNoOverlay).status.hydrator_ok = false ∧
    UnitAction.kustomizeBuild ∉ (runUnit envNoOverlay).actions ∧
    (runUnit envNoOverlay).exc = none :=
  (claim_C4_missing_overlay_preflight false false none envNoOverlay rfl).1 rfl

/-- Unit whose kustomize binary is missing: Process.run raises a
CliWarning, _run_kustomize turns it into a CliError that escapes run. -/
def envKustomizeMissing : UnitEnv :=
  ⟨true, .ok, .binMissing, false, .ok, [], false, true⟩

/-- Unit that hydrates cleanly. -/
def envHealthy : UnitEnv :=
  ⟨true, .ok, .ok, false, .ok, [], false, true⟩

/-- Counterexample to claim C8: in sequential mode (workers == 0) the
CliError escaping the first unit (kustomize binary missing) aborts the
loop, so of two scheduled units only the first is run, while the pooled
worker loop runs both.  The claim asserted isolation in both modes. -/
theorem claim_C8_counterexample :
    (runUnit envKustomizeMissing).exc = some PyExc.cliError ∧
    seqScheduler [envKustomizeMissing, envHealthy] =
      ([runUnit envKustomizeMissing], some PyExc.cliError) ∧
    (seqScheduler [envKustomizeMissing, envHealthy]).1.length = 1 ∧
    workerLoop [envKustomizeMissing, envHealthy] =
      [runUnit envKustomizeMissing, runUnit envHealthy] := by
  refine ⟨by decide, by decide, by decide, by decide⟩

/-- Claim C8 as amended: exception isolation holds only in pooled mode,
where the worker loop processes every dequeued unit whatever exceptions
escape individual runs; in sequential mode an exception escaping one
unit run ends the scheduler with exactly the units processed so far. -/
theorem claim_C8_amended_isolation (units : List UnitEnv) (u : UnitEnv)
    (us : List UnitEnv) (e : PyExc) :
    ((workerLoop units).length = units.length) ∧
    ((runUnit u).exc = some e → seqScheduler (u :: us) = ([runUnit u], some e)) := by
  constructor
  · induction units with
    | nil => rfl
    | cons a l ih => simp [workerLoop, ih]
  · intro hexc
    simp [seqScheduler, hexc]

/-- Log levels used by Process.run for subprocess output. -/
inductive LogLevel
  | info
  | warn
deriving DecidableEq, Repr

/-- Events of one Process.run call, in program order: waiting for the
subprocess to exit, and logging one decoded line read from a pipe. -/
inductive ProcEvent
  | procWait
  | logLine (lvl : LogLevel) (text : String)
deriving DecidableEq, Repr

/-- One iteration group of the reader loop in Process.run: a single pipe
is drained to the end, each line logged at the given level and, when
store_output is set, appended to the matching instance attribute. -/
def drainReader (lvl : LogLevel) (store : Bool) : List String → List ProcEvent × List String
  | [] => ([], [])
  | l :: ls =>
    let r := drainReader lvl store ls
    (.logLine lvl l :: r.1, if store then l :: r.2 else r.2)

/-- Trace of one Process.run call: the ordered events plus the stored
stdout and stderr line lists. -/
structure ProcTrace where
  events : List ProcEvent
  stdout : List String
  stderr : List String
deriving DecidableEq, Repr

/-- Process.run: _find_in_path raises a CliWarning when the binary is not
on the path; otherwise the subprocess is created, awaited to completion,
and then the stdout pipe is drained in full (logged at info level)
followed by the stderr pipe (logged at warn level). -/
def processRun (binOnPath : Bool) (store : Bool) (outLines errLines : List String) :
    Except PyExc ProcTrace :=
  if binOnPath = false then .error .cliWarning
  else
    let o := drainReader .info store outLines
    let e := drainReader .warn store errLines
    .ok ⟨ProcEvent.procWait :: (o.1 ++ e.1), o.2, e.2⟩

/-- True when no stdout (info-level) read event occurs in the list. -/
def noInfoReads : List ProcEvent → Bool
  | [] => true
  | .logLine .info _ :: _ => false
  | _ :: rest => noInfoReads rest

/-- True when the reads in the event list are phase-ordered, that is
sequential: once any stderr line has been read, no stdout line is read
afterwards.  Concurrent pipe reading would interleave, making this
false for runs with output on both pipes in adversarial schedules; the
actual reader produces it always. -/
def readsSequential : List ProcEvent → Bool
  | [] => true
  | .logLine .warn _ :: rest => noInfoReads rest && readsSequential rest
  | _ :: rest => readsSequential rest

/-- True when the first event is the wait for subprocess exit, i.e. all
pipe reading happens only after the process has terminated. -/
def waitFirst : List ProcEvent → Bool
  | .procWait :: _ => true
  | _ => false

lemma drainReader_events (lvl : LogLevel) (store : Bool) (ls : List String) :
    (drainReader lvl store ls).1 = ls.map (ProcEvent.logLine lvl) := by
  induction ls with
  | nil => rfl
  | cons l ls ih => simp [drainReader, ih]

lemma noInfoReads_warnMap (errs : List String) :
    noInfoReads (errs.map (ProcEvent.logLine .warn)) = true := by
  induction errs with
  | nil => rfl
  | cons e es ih => simpa [noInfoReads] using ih

lemma readsSequential_warnMap (errs : List String) :
    readsSequential (errs.map (ProcEvent.logLine .warn)) = true := by
  induction errs with
  | nil => rfl
  | cons e es ih => simp [readsSequential, noInfoReads_warnMap, ih]

lemma readsSequential_infoThenWarn (outs errs : List String) :
    readsSequential (outs.map (ProcEvent.logLine .info) ++
      errs.map (ProcEvent.logLine .warn)) = true := by
  induction outs with
  | nil => simpa using readsSequential_warnMap errs
  | cons o os ih => simpa [readsSequential] using ih

/-- Counterexample to claim C9: with one line on each pipe, the trace of
Process.run waits for process exit first and then reads the whole stdout
pipe strictly before the stderr pipe: the pipes are read sequentially,
not concurrently, contradicting the claim (this is exactly the pattern
that can deadlock on a full pipe buffer). -/
theorem claim_C9_counterexample :
    processRun true true ["build ok"] ["warning: x"] =
      .ok ⟨[ProcEvent.procWait, .logLine .info "build ok", .logLine .warn "warning: x"],
        ["build ok"], ["warning: x"]⟩ ∧
    readsSequential [ProcEvent.procWait, .logLine .info "build ok",
      .logLine .warn "warning: x"] = true ∧
    waitFirst [ProcEvent.procWait, .logLine .info "build ok",
      .logLine .warn "warning: x"] = true := by
  refine ⟨rfl, by decide, by decide⟩

/-- Claim C9 as amended: whenever the build tool runs with its binary on
the path, the runner first waits for the subprocess to exit, then logs
every stdout line at info level, then every stderr line at warn level;
the two pipes are therefore read sequentially, never concurrently. -/
theorem claim_C9_amended_sequential_reads (store : Bool) (outs errs : List String)
    (tr : ProcTrace) (h : processRun true store outs errs = .ok tr) :
    tr.events = ProcEvent.procWait :: (outs.map (ProcEvent.logLine .info) ++
      errs.map (ProcEvent.logLine .warn)) ∧
    readsSequential tr.events = true ∧
    waitFirst tr.events = true := by
  have htr : tr = ⟨ProcEvent.procWait :: ((drainReader .info store outs).1 ++
      (drainReader .warn store errs).1), (drainReader .info store outs).2,
      (drainReader .warn store errs).2⟩ := by
    simpa [processRun] using h.symm
  subst htr
  refine ⟨by simp [drainReader_events], ?_, rfl⟩
  simp only [drainReader_events]
  simpa [readsSequential] using readsSequential_infoThenWarn outs errs

/-- Witness for the amended claim C9 at a concrete run with one line on
each pipe. -/
theorem claim_C9_witness :
    ProcTrace.events ⟨[ProcEvent.procWait, .logLine .info "a", .logLine .warn "b"],
        ["a"], ["b"]⟩ =
      ProcEvent.procWait :: (["a"].map (ProcEvent.logLine .info) ++
        ["b"].map (ProcEvent.logLine .warn)) ∧
    readsSequential (ProcTrace.events ⟨[ProcEvent.procWait, .logLine .info "a",
      .logLine .warn "b"], ["a"], ["b"]⟩) = true ∧
    waitFirst (ProcTrace.events ⟨[ProcEvent.procWait, .logLine .info "a",
      .logLine .warn "b"], ["a"], ["b"]⟩) = true :=
  claim_C9_amended_sequential_reads true ["a"] ["b"] _ rfl

/-- One row of the source-of-truth table after DictReader parsing and
stripping, seen through the uniform config accessors: none means the
column is absent (the accessor raises AttributeError), some holds the
cell text. -/
structure SotRow where
  nameVal : Option String
  groupVal : Option String
  tagsVal : Option String
deriving DecidableEq, Repr

/-- Result of check_config: ok, a ConfigWarning (recoverable, per-item)
or a ConfigError (fatal, aborts the run). -/
inductive CheckResult
  | ok
  | warning (msg : String)
  | fatal (msg : String)
deriving DecidableEq, Repr

/-- ASCII whitespace stripped by the str strip method. -/
def isSpaceChar (c : Char) : Bool :=
  c = ' ' || c = '\t' || c = '\n' || c = '\r' || c = '\x0b' || c = '\x0c'

/-- The str strip method: leading and trailing whitespace removed. -/
def pyStrip (s : String) : String :=
  String.mk (((s.data.dropWhile isSpaceChar).reverse.dropWhile isSpaceChar).reverse)

/-- check_config from util.py: a missing name column is a ConfigError
and an empty name a ConfigWarning; a missing group column is a
ConfigError and an empty group also a ConfigError; a missing tags
column is a ConfigError; the tags value itself is not inspected. -/
def check_config (cfg : SotRow) : CheckResult :=
  match cfg.nameVal with
  | none => .fatal "Source of truth file missing name column"
  | some n =>
    if pyStrip n = "" then .warning "Got empty string as name"
    else
      match cfg.groupVal with
      | none => .fatal "Could not find group column in source"
      | some g =>
        if pyStrip g = "" then .fatal "group is required and should not be empty"
        else
          match cfg.tagsVal with
          | none => .fatal "Could not find tags column in source"
          | some _ => .ok

/-- Dictionary assignment on an association list with unique keys: the
value at an existing key is replaced in place, a new key is appended. -/
def dictSet {α : Type} (k : String) (v : α) : List (String × α) → List (String × α)
  | [] => [(k, v)]
  | kv :: rest => if kv.1 == k then (k, v) :: rest else kv :: dictSet k v rest

/-- Dictionary deletion on an association list: the entry with the key
is removed (dict keys are unique, so removing every entry with the key
is the same operation). -/
def dictDelete {α : Type} (k : String) (l : List (String × α)) : List (String × α) :=
  l.filter fun kv => kv.1 != k

/-- Outcome of BaseCli._process_sot_file over the parsed rows: the
accumulated data on success, a CliError raised from a ConfigError
(aborting the run before any item runs), or an uncaught KeyError from
the ConfigWarning handler (crashing the run). -/
inductive SotOutcome
  | ok (data : List (String × SotRow))
  | aborted (msg : String)
  | crashedKeyError
deriving DecidableEq, Repr

/-- Row loop of BaseCli._process_sot_file: a ConfigError is re-raised as
CliError; a ConfigWarning is logged and handled with del data[cfg.name]
(raising KeyError when the name was never inserted), after which control
falls through to data[cfg.name] = cfg, so the row is stored anyway; a
clean row is stored. -/
def processRows : List SotRow → List (String × SotRow) → SotOutcome
  | [], data => .ok data
  | cfg :: rest, data =>
    match check_config cfg with
    | .fatal msg => .aborted msg
    | .warning _ =>
      match cfg.nameVal with
      | none => .crashedKeyError
      | some n =>
        if (data.lookup n).isSome then processRows rest (dictSet n cfg (dictDelete n data))
        else .crashedKeyError
    | .ok =>
      match cfg.nameVal with
      | none => .crashedKeyError
      | some n => processRows rest (dictSet n cfg data)

/-- Row with a present but empty group cell. -/
def rowEmptyGroup : SotRow := ⟨some "cluster1", some "", some "tagA"⟩

/-- Healthy row that the claim says should still be processed. -/
def rowHealthy : SotRow := ⟨some "cluster2", some "groupA", some "tagA"⟩

/-- Row with a present but empty name cell. -/
def rowEmptyName : SotRow := ⟨some "", some "groupA", some "tagA"⟩

/-- Counterexample to claim C3: a row with an empty group is not a
recoverable per-item warning: check_config raises ConfigError, the run
is aborted and the healthy row after it is never processed; and a row
with an empty name does raise a ConfigWarning, but the handler crashes
the run with an uncaught KeyError instead of skipping the item. -/
theorem claim_C3_counterexample :
    check_config rowEmptyGroup = .fatal "group is required and should not be empty" ∧
    processRows [rowEmptyGroup, rowHealthy] [] =
      .aborted "group is required and should not be empty" ∧
    check_config rowEmptyName = .warning "Got empty string as name" ∧
    processRows [rowEmptyName, rowHealthy] [] = .crashedKeyError := by
  refine ⟨by decide, by decide, by decide, by decide⟩

/-- Claim C3 as amended: a missing required column (name, group or tags)
is a fatal configuration error aborting the run, and an empty group is
equally fatal; an empty tags cell is accepted; an empty name raises a
per-item ConfigWarning, but the row is not skipped: when no earlier row
used the same name the handler crashes the run with a KeyError, and
otherwise control falls through and stores the row anyway. -/
theorem claim_C3_amended_config_errors (cfg : SotRow) (rest : List SotRow)
    (data : List (String × SotRow)) :
    (cfg.nameVal = none →
      check_config cfg = .fatal "Source of truth file missing name column" ∧
      processRows (cfg :: rest) data =
        .aborted "Source of truth file missing name column") ∧
    (∀ n, cfg.nameVal = some n → pyStrip n ≠ "" → cfg.groupVal = none →
      check_config cfg = .fatal "Could not find group column in source" ∧
      processRows (cfg :: rest) data =
        .aborted "Could not find group column in source") ∧
    (∀ n g, cfg.nameVal = some n → pyStrip n ≠ "" → cfg.groupVal = some g → pyStrip g = "" →
      check_config cfg = .fatal "group is required and should not be empty" ∧
      processRows (cfg :: rest) data =
        .aborted "group is required and should not be empty") ∧
    (∀ n g, cfg.nameVal = some n → pyStrip n ≠ "" → cfg.groupVal = some g → pyStrip g ≠ "" →
      cfg.tagsVal = none →
      check_config cfg = .fatal "Could not find tags column in source" ∧
      processRows (cfg :: rest) data =
        .aborted "Could not find tags column in source") ∧
    (∀ n, cfg.nameVal = some n → pyStrip n = "" →
      check_config cfg = .warning "Got empty string as name" ∧
      ((data.lookup n).isSome = false →
        processRows (cfg :: rest) data = .crashedKeyError) ∧
      ((data.lookup n).isSome = true →
        processRows (cfg :: rest) data =
          processRows rest (dictSet n cfg (dictDelete n data)))) ∧
    (∀ n g t, cfg.nameVal = some n → pyStrip n ≠ "" → cfg.groupVal = some g →
      pyStrip g ≠ "" → cfg.tagsVal = some t →
      check_config cfg = .ok ∧
      processRows (cfg :: rest) data = processRows rest (dictSet n cfg data)) := by
  refine ⟨?_, ?_, ?_, ?_, ?_, ?_⟩
  · intro hn
    have hc : check_config cfg = .fatal "Source of truth file missing name column" := by
      simp [check_config, hn]
    exact ⟨hc, by simp [processRows, hc]⟩
  · intro n hn hne hg
    have hc : check_config cfg = .fatal "Could not find group column in source" := by
      simp [check_config, hn, hne, hg]
    exact ⟨hc, by simp [processRows, hc]⟩
  · intro n g hn hne hg hge
    have hc : check_config cfg = .fatal "group is required and should not be empty" := by
      simp [check_config, hn, hne, hg, hge]
    exact ⟨hc, by simp [processRows, hc]⟩
  · intro n g hn hne hg hge ht
    have hc : check_config cfg = .fatal "Could not find tags column in source" := by
      simp [check_config, hn, hne, hg, hge, ht]
    exact ⟨hc, by simp [processRows, hc]⟩
  · intro n hn hne
    have hc : check_config cfg = .warning "Got empty string as name" := by
      simp [check_config, hn, hne]
    refine ⟨hc, ?_, ?_⟩
    · intro hmiss; simp [processRows, hc, hn, hmiss]
    · intro hhit; simp [processRows, hc, hn, hhit]
  · intro n g t hn hne hg hge ht
    have hc : check_config cfg = .ok := by
      simp [check_config, hn, hne, hg, hge, ht]
    exact ⟨hc, by simp [processRows, hc, hn]⟩

/-- Witness for the amended claim C3: the empty-name row crashes the
run with a KeyError on an empty data dictionary. -/
theorem claim_C3_amended_witness :
    check_config rowEmptyName = .warning "Got empty string as name" ∧
    processRows [rowEmptyName] [] = .crashedKeyError := by
  have h := (claim_C3_amended_config_errors rowEmptyName [] []).2.2.2.2.1 "" rfl (by decide)
  exact ⟨h.1, h.2.1 rfl⟩

/-- A file system path as its sequence of components (pathlib parts). -/
abbrev FsPath := List String

/-- The provenance annotation key K8sResourceParser uses. -/
def hydratorUidKey : String := "hydrator-uid"

/-- A structured resource document as the parser sees it: whether the
apiVersion and kind keys are present (with their values), the
metadata.annotations string map, and the remaining document content
abstracted as a key-value list. -/
structure KrmDoc where
  apiVersion : Option String
  kind : Option String
  annots : List (String × String)
  body : List (String × String)
deriving DecidableEq, Repr

/-- is_valid_object from util.py: the document has both the apiVersion
and the kind keys. -/
def is_valid_object (d : KrmDoc) : Bool :=
  d.apiVersion.isSome && d.kind.isSome

/-- K8sResourceParser._generate_key.  The dumps parameter stands for
json.dumps with sorted keys and sha for the sha256 hex digest, both
external library calls.  An invalid document raises a CliWarning; a
present, non-empty (truthy) prior annotation value is reused as the
key, otherwise the key is the digest of the canonical serialization. -/
def generate_key (dumps : KrmDoc → String) (sha : String → String) (d : KrmDoc) :
    Except PyExc String :=
  if is_valid_object d = false then .error .cliWarning
  else
    match d.annots.lookup hydratorUidKey with
    | some u => if u = "" then .ok (sha (dumps d)) else .ok u
    | none => .ok (sha (dumps d))

/-- K8sResourceParser._generate_path_key: digest of the formatted pair
of item identity and resource key. -/
def generate_path_key (sha : String → String) (resource_key : String)
    (unique_id : String) : String :=
  sha ("uid:" ++ unique_id ++ ",resource_key:" ++ resource_key)

/-- krm_add_annotation from krm.py: sets the annotation key to the value
in the metadata.annotations map. -/
def krm_add_annot (d : KrmDoc) (k v : String) : KrmDoc :=
  { d with annots := dictSet k v d.annots }

/-- The per-process K8sResourceParser state: the provenance map from
path keys to the source paths recorded under them, and the per-item
overlay resource lists. -/
structure ParserState where
  uidToPath : List (String × List FsPath)
  overlayResources : List (String × List FsPath)
deriving DecidableEq, Repr

/-- Loop body of K8sResourceParser._in_overlay_paths over the overlay
resource list: for each overlay path, the index of the first occurrence
of the first candidate-parent component is looked up (a missing
component continues with the next overlay path, as the ValueError is
swallowed), and the candidate parent must equal the overlay path suffix
from that index.  Reading the first component of an empty parent raises
an IndexError. -/
def inOverlayGo (pparts : List String) : List FsPath → Except PyExc Bool
  | [] => .ok false
  | o :: rest =>
    match pparts.head? with
    | none => .error .indexError
    | some p0 =>
      match o.findIdx? (fun c => c == p0) with
      | none => inOverlayGo pparts rest
      | some idx => if pparts = o.drop idx then .ok true else inOverlayGo pparts rest

/-- K8sResourceParser._in_overlay_paths: looks up the overlay resource
list recorded for the item (a missing entry raises KeyError) and
matches the parent directory of the candidate path against it. -/
def in_overlay_paths (st : ParserState) (p : FsPath) (unique_id : String) :
    Except PyExc Bool :=
  match st.overlayResources.lookup unique_id with
  | none => .error .keyError
  | some ovs => inOverlayGo p.dropLast ovs

/-- Candidate loop of K8sResourceParser.get_path: the first recorded
path lying in the overlay resource list is returned; with no match the
result is none. -/
def getPathGo (st : ParserState) (unique_id : String) :
    List FsPath → Except PyExc (Option FsPath)
  | [] => .ok none
  | p :: rest =>
    match in_overlay_paths st p unique_id with
    | .error e => .error e
    | .ok true => .ok (some p)
    | .ok false => getPathGo st unique_id rest

/-- K8sResourceParser.get_path: the resource key and path key are
derived from the document; when exactly one source path is recorded
under the path key it is returned at once, otherwise the recorded paths
are filtered through the overlay resource list. -/
def get_path (dumps : KrmDoc → String) (sha : String → String) (st : ParserState)
    (d : KrmDoc) (unique_id : String) : Except PyExc (Option FsPath) :=
  match generate_key dumps sha d with
  | .error e => .error e
  | .ok rk =>
    match (st.uidToPath.lookup (generate_path_key sha rk unique_id)).getD [] with
    | [p] => .ok (some p)
    | s => getPathGo st unique_id s

/-- How a document lands in its destination file during a split pass:
the first document for a file truncates or creates it, later ones are
appended after a separator line of three dashes. -/
inductive WriteMode
  | truncate
  | appendWithSep
deriving DecidableEq, Repr, BEq

/-- One document written to a destination file during the split pass. -/
structure ManifestWrite where
  dest : FsPath
  mode : WriteMode
  doc : KrmDoc
deriving DecidableEq, Repr

/-- The reserved directory name stripped from split destinations. -/
def baseLibraryDirName : String := "base_library"

/-- Destination rewrite in _split_manifest: every path component equal
to the base library directory name is removed. -/
def stripBaseLibrary (p : FsPath) : FsPath :=
  p.filter fun part => part != baseLibraryDirName

/-- Removal of the provenance annotation before a split document is
written; a missing key (KeyError) is logged and ignored, which has the
same net effect. -/
def removeUidAnnot (d : KrmDoc) : KrmDoc :=
  { d with annots := dictDelete hydratorUidKey d.annots }

/-- Document loop of _split_manifest, threading the per-unit visited
file set: a resolved document is written to the stripped destination
under the output directory, truncating on first visit and appending
after a separator on later visits, with the provenance annotation
removed; an unresolved document is collected for the filtered combined
manifest; an exception from get_path propagates (the caller marks the
split stage failed).  Returns the writes in order, the filtered
documents in order, and the final visited set. -/
def splitGo (dumps : KrmDoc → String) (sha : String → String) (st : ParserState)
    (uid : String) (outDir : FsPath) :
    List KrmDoc → List FsPath → Except PyExc (List ManifestWrite × List KrmDoc × List FsPath)
  | [], visited => .ok ([], [], visited)
  | d :: ds, visited =>
    match get_path dumps sha st d uid with
    | .error e => .error e
    | .ok none =>
      match splitGo dumps sha st uid outDir ds visited with
      | .error e => .error e
      | .ok r => .ok (r.1, d :: r.2.1, r.2.2)
    | .ok (some p) =>
      let outFile := stripBaseLibrary (outDir ++ p)
      match visited.contains outFile with
      | true =>
        match splitGo dumps sha st uid outDir ds visited with
        | .error e => .error e
        | .ok r => .ok (⟨outFile, .appendWithSep, removeUidAnnot d⟩ :: r.1, r.2.1, r.2.2)
      | false =>
        match splitGo dumps sha st uid outDir ds (outFile :: visited) with
        | .error e => .error e
        | .ok r => .ok (⟨outFile, .truncate, removeUidAnnot d⟩ :: r.1, r.2.1, r.2.2)

/-- Result of one split pass. -/
structure SplitResult where
  writes : List ManifestWrite
  filtered : List KrmDoc
  combinedDeleted : Bool
  renderedPath : FsPath
deriving DecidableEq, Repr

/-- _split_manifest: the documents of the combined manifest are split
with an empty visited set; when documents remain unresolved they are
re-serialized to the combined manifest path, otherwise the combined
manifest file is deleted and the rendered path becomes the output
directory. -/
def split_manifest (dumps : KrmDoc → String) (sha : String → String)
    (st : ParserState) (uid : String) (outDir renderedP : FsPath)
    (docs : List KrmDoc) : Except PyExc SplitResult :=
  match splitGo dumps sha st uid outDir docs [] with
  | .error e => .error e
  | .ok r =>
    if r.2.1.isEmpty then .ok ⟨r.1, r.2.1, true, outDir⟩
    else .ok ⟨r.1, r.2.1, false, renderedP⟩

/-- Append-semantics check for a write list: relative to the set of
destinations seen so far, each write truncates exactly when its
destination has not been written before, and appends after a separator
otherwise. -/
def modesOkFrom (seen : List FsPath) : List ManifestWrite → Bool
  | [] => true
  | w :: ws =>
    (if seen.contains w.dest then w.mode == WriteMode.appendWithSep
      else w.mode == WriteMode.truncate) && modesOkFrom (w.dest :: seen) ws

/-- Whether get_path resolves the document to a source path. -/
def resolvesTo (dumps : KrmDoc → String) (sha : String → String) (st : ParserState)
    (uid : String) (d : KrmDoc) : Bool :=
  match get_path dumps sha st d uid with
  | .ok (some _) => true
  | _ => false



lemma dictDelete_lookup_self {α : Type} (k : String) (l : List (String × α)) :
    (dictDelete k l).lookup k = none := by
  induction l with
  | nil => rfl
  | cons kv rest ih =>
    obtain ⟨k1, v1⟩ := kv
    by_cases hk : k1 = k
    · subst hk
      simpa [dictDelete, List.filter_cons] using ih
    · have hb1 : (k1 != k) = true := bne_iff_ne.mpr hk
      have hb2 : (k == k1) = false := beq_eq_false_iff_ne.mpr (Ne.symm hk)
      simpa [dictDelete, List.filter_cons, hb1, List.lookup, hb2] using ih

lemma dictSet_lookup_self {α : Type} (k : String) (v : α) (l : List (String × α)) :
    (dictSet k v l).lookup k = some v := by
  induction l with
  | nil => simp [dictSet, List.lookup]
  | cons kv rest ih =>
    obtain ⟨k1, v1⟩ := kv
    by_cases hk : k1 = k
    · subst hk
      simp [dictSet, List.lookup]
    · have hb1 : (k1 == k) = false := beq_eq_false_iff_ne.mpr hk
      have hb2 : (k == k1) = false := beq_eq_false_iff_ne.mpr (Ne.symm hk)
      simpa [dictSet, hb1, List.lookup, hb2] using ih

lemma removeUidAnnot_lookup (d : KrmDoc) :
    (removeUidAnnot d).annots.lookup hydratorUidKey = none :=
  dictDelete_lookup_self hydratorUidKey d.annots

lemma contains_cons_eq (a x : FsPath) (l : List FsPath) :
    (a :: l).contains x = (x == a || l.contains x) := by
  cases h : x == a <;> simp [List.contains, List.elem, h]

lemma contains_cons_dup (s : List FsPath) (a : FsPath) (ha : s.contains a = true)
    (x : FsPath) : (a :: s).contains x = s.contains x := by
  rw [contains_cons_eq]
  cases hx : x == a
  · rw [Bool.false_or]
  · have hxa : x = a := eq_of_beq hx
    subst hxa
    rw [Bool.true_or, ha]

lemma modesOkFrom_congr (ws : List ManifestWrite) (s1 s2 : List FsPath)
    (h : ∀ d, s1.contains d = s2.contains d) :
    modesOkFrom s1 ws = modesOkFrom s2 ws := by
  induction ws generalizing s1 s2 with
  | nil => rfl
  | cons w ws ih =>
    simp only [modesOkFrom, h w.dest]
    congr 1
    exact ih _ _ fun d => by rw [contains_cons_eq, contains_cons_eq, h d]

lemma splitGo_modes (dumps : KrmDoc → String) (sha : String → String)
    (st : ParserState) (uid : String) (outDir : FsPath) :
    ∀ (ds : List KrmDoc) (visited : List FsPath) r,
    splitGo dumps sha st uid outDir ds visited = .ok r →
    modesOkFrom visited r.1 = true := by
  intro ds
  induction ds with
  | nil =>
    intro visited r h
    simp only [splitGo] at h
    cases h
    rfl
  | cons d ds ih =>
    intro visited r h
    simp only [splitGo] at h
    split at h
    · cases h
    · split at h
      · cases h
      · cases h
        rename_i r2 hrec
        exact ih visited r2 hrec
    · rename_i p hg
      split at h
      · rename_i hv
        split at h
        · cases h
        · cases h
          rename_i r2 hrec
          have h2 : modesOkFrom (stripBaseLibrary (outDir ++ p) :: visited) r2.1 = true := by
            rw [modesOkFrom_congr r2.1 _ visited (contains_cons_dup visited _ hv)]
            exact ih visited r2 hrec
          have hvm : stripBaseLibrary (outDir ++ p) ∈ visited := by simpa using hv
          simp [modesOkFrom, hv, hvm, h2]
          rfl
      · rename_i hv
        split at h
        · cases h
        · cases h
          rename_i r2 hrec
          have h2 : modesOkFrom (stripBaseLibrary (outDir ++ p) :: visited) r2.1 = true :=
            ih _ r2 hrec
          have hvm : stripBaseLibrary (outDir ++ p) ∉ visited := by simpa using hv
          simp [modesOkFrom, hv, hvm, h2]
          rfl

lemma splitGo_annots (dumps : KrmDoc → String) (sha : String → String)
    (st : ParserState) (uid : String) (outDir : FsPath) :
    ∀ (ds : List KrmDoc) (visited : List FsPath) r,
    splitGo dumps sha st uid outDir ds visited = .ok r →
    ∀ w ∈ r.1, w.doc.annots.lookup hydratorUidKey = none := by
  intro ds
  induction ds with
  | nil =>
    intro visited r h
    simp only [splitGo] at h
    cases h
    intro w hw
    cases hw
  | cons d ds ih =>
    intro visited r h
    simp only [splitGo] at h
    split at h
    · cases h
    · split at h
      · cases h
      · cases h
        rename_i r2 hrec
        exact ih visited r2 hrec
    · rename_i p hg
      split at h
      · split at h
        · cases h
        · cases h
          rename_i r2 hrec
          intro w hw
          rcases List.mem_cons.mp hw with hhead | htail
          · subst hhead
            exact removeUidAnnot_lookup d
          · exact ih visited r2 hrec w htail
      · split at h
        · cases h
        · cases h
          rename_i r2 hrec
          intro w hw
          rcases List.mem_cons.mp hw with hhead | htail
          · subst hhead
            exact removeUidAnnot_lookup d
          · exact ih _ r2 hrec w htail

lemma splitGo_filtered (dumps : KrmDoc → String) (sha : String → String)
    (st : ParserState) (uid : String) (outDir : FsPath) :
    ∀ (ds : List KrmDoc) (visited : List FsPath) r,
    splitGo dumps sha st uid outDir ds visited = .ok r →
    r.2.1 = ds.filter fun d => !(resolvesTo dumps sha st uid d) := by
  intro ds
  induction ds with
  | nil =>
    intro visited r h
    simp only [splitGo] at h
    cases h
    rfl
  | cons d ds ih =>
    intro visited r h
    simp only [splitGo] at h
    split at h
    · cases h
    · rename_i hg
      split at h
      · cases h
      · cases h
        rename_i r2 hrec
        have hres : resolvesTo dumps sha st uid d = false := by
          simp [resolvesTo, hg]
        simp only [List.filter_cons, hres, Bool.not_false, if_pos rfl]
        exact congrArg (d :: ·) (ih visited r2 hrec)
    · rename_i p hg
      have hres : resolvesTo dumps sha st uid d = true := by
        simp [resolvesTo, hg]
      split at h
      · split at h
        · cases h
        · cases h
          rename_i r2 hrec
          simpa [List.filter_cons, hres] using ih visited r2 hrec
      · split at h
        · cases h
        · cases h
          rename_i r2 hrec
          simpa [List.filter_cons, hres] using ih _ r2 hrec

/-- Claim C5: in one split pass the first document resolved to a file
truncates or creates it and every later document resolved to the same
file is appended after a separator line (the per-unit visited set makes
the write mode depend exactly on whether that file was already written
in this pass); every written document has the provenance annotation
removed first; the unresolved documents, in order, form the filtered
combined manifest; and the combined manifest file is deleted, the
rendered path becoming the output directory, exactly when every
document resolved. -/
theorem claim_C5_split_pass_semantics (dumps : KrmDoc → String) (sha : String → String)
    (st : ParserState) (uid : String) (outDir renderedP : FsPath)
    (docs : List KrmDoc) (res : SplitResult)
    (h : split_manifest dumps sha st uid outDir renderedP docs = .ok res) :
    (res.combinedDeleted = true ↔ res.filtered = []) ∧
    (res.renderedPath = if res.filtered.isEmpty then outDir else renderedP) ∧
    modesOkFrom [] res.writes = true ∧
    (∀ w ∈ res.writes, w.doc.annots.lookup hydratorUidKey = none) ∧
    res.filtered = docs.filter fun d => !(resolvesTo dumps sha st uid d) := by
  simp only [split_manifest] at h
  split at h
  · cases h
  · rename_i r hs
    split at h
    · rename_i hemp
      cases h
      have hnil : r.2.1 = [] := by
        cases hl : r.2.1 with
        | nil => rfl
        | cons a l => rw [hl] at hemp; cases hemp
      refine ⟨by simp [hnil], by simp [hnil], ?_, ?_, ?_⟩
      · exact splitGo_modes dumps sha st uid outDir docs [] r hs
      · exact splitGo_annots dumps sha st uid outDir docs [] r hs
      · exact splitGo_filtered dumps sha st uid outDir docs [] r hs
    · rename_i hemp
      cases h
      have hne : r.2.1 ≠ [] := by
        intro hcon
        exact hemp (by simp [hcon])
      have hempf : r.2.1.isEmpty = false := by
        cases hl : r.2.1 with
        | nil => exact absurd hl hne
        | cons a l => rfl
      refine ⟨⟨(fun hcon => by cases hcon), (fun hcon => absurd hcon hne)⟩,
        by simp [hempf], ?_, ?_, ?_⟩
      · exact splitGo_modes dumps sha st uid outDir docs [] r hs
      · exact splitGo_annots dumps sha st uid outDir docs [] r hs
      · exact splitGo_filtered dumps sha st uid outDir docs [] r hs

/-- Serialization stand-in for the C5 witness. -/
def c5Dumps : KrmDoc → String := fun _ => "X"

/-- Digest stand-in for the C5 witness. -/
def c5Sha : String → String := fun s => s

/-- Concrete annotated document for the C5 witness. -/
def c5Doc : KrmDoc :=
  ⟨some "v1", some "ConfigMap", [("hydrator-uid", "k1")], [("note", "x")]⟩

/-- Concrete parser state for the C5 witness: the path key of c5Doc maps
to exactly one recorded source path. -/
def c5State : ParserState :=
  ⟨[("uid:u,resource_key:k1", [["base_library", "ns", "a.yaml"]])], []⟩

/-- Expected split result for the C5 witness. -/
def c5Res : SplitResult :=
  ⟨[⟨["out", "ns", "a.yaml"], .truncate, removeUidAnnot c5Doc⟩,
    ⟨["out", "ns", "a.yaml"], .appendWithSep, removeUidAnnot c5Doc⟩], [], true, ["out"]⟩

/-- Witness for claim C5: two copies of one resolved document land in
the same destination file, the first truncating and the second
appending, and the fully resolved manifest is deleted. -/
theorem claim_C5_witness :
    (c5Res.combinedDeleted = true ↔ c5Res.filtered = []) ∧
    modesOkFrom [] c5Res.writes = true ∧
    c5Res.renderedPath = ["out"] :=
  ⟨(claim_C5_split_pass_semantics c5Dumps c5Sha c5State "u" ["out"] ["out", "u.yaml"]
      [c5Doc, c5Doc] c5Res rfl).1,
    (claim_C5_split_pass_semantics c5Dumps c5Sha c5State "u" ["out"] ["out", "u.yaml"]
      [c5Doc, c5Doc] c5Res rfl).2.2.1,
    rfl⟩

lemma getPathGo_unique (st : ParserState) (uid : String) :
    ∀ (s : List FsPath) (p : FsPath), p ∈ s →
    in_overlay_paths st p uid = .ok true →
    (∀ q ∈ s, q ≠ p → in_overlay_paths st q uid = .ok false) →
    getPathGo st uid s = .ok (some p) := by
  intro s
  induction s with
  | nil => intro p hp; cases hp
  | cons q rest ih =>
    intro p hp hptrue hothers
    by_cases hqp : q = p
    · subst hqp
      simp only [getPathGo, hptrue]
    · have hq : in_overlay_paths st q uid = .ok false :=
        hothers q (List.mem_cons_self q rest) hqp
      have hp2 : p ∈ rest := by
        rcases List.mem_cons.mp hp with h1 | h1
        · exact absurd h1.symm hqp
        · exact h1
      simp only [getPathGo, hq]
      exact ih p hp2 hptrue fun x hx hxp => hothers x (List.mem_cons_of_mem q hx) hxp

lemma getPathGo_none (st : ParserState) (uid : String) :
    ∀ (s : List FsPath), (∀ q ∈ s, in_overlay_paths st q uid = .ok false) →
    getPathGo st uid s = .ok none := by
  intro s
  induction s with
  | nil => intro _; rfl
  | cons q rest ih =>
    intro hall
    have hq := hall q (List.mem_cons_self q rest)
    simp only [getPathGo, hq]
    exact ih fun x hx => hall x (List.mem_cons_of_mem q hx)

lemma split_manifest_filtered (dumps : KrmDoc → String) (sha : String → String)
    (st : ParserState) (uid : String) (outDir renderedP : FsPath)
    (docs : List KrmDoc) (res : SplitResult)
    (h : split_manifest dumps sha st uid outDir renderedP docs = .ok res) :
    res.filtered = docs.filter fun d => !(resolvesTo dumps sha st uid d) := by
  simp only [split_manifest] at h
  split at h
  · cases h
  · rename_i r hs
    split at h
    · cases h
      exact splitGo_filtered dumps sha st uid outDir docs [] r hs
    · cases h
      exact splitGo_filtered dumps sha st uid outDir docs [] r hs

/-- Claim C1: when exactly one source path is recorded under the path
key of a split document, it is the resolved destination; when two or
more are recorded, the one lying in the recorded overlay resource list
(matched by suffix from the first common component) is chosen; and when
no candidate matches, get_path returns none and the document stays in
the filtered combined manifest instead of being dropped. -/
theorem claim_C1_split_destination_resolution (dumps : KrmDoc → String)
    (sha : String → String) (st : ParserState) (uid : String) (d : KrmDoc)
    (rk : String) (hk : generate_key dumps sha d = .ok rk) :
    (∀ p, (st.uidToPath.lookup (generate_path_key sha rk uid)).getD [] = [p] →
      get_path dumps sha st d uid = .ok (some p)) ∧
    (∀ s p, (st.uidToPath.lookup (generate_path_key sha rk uid)).getD [] = s →
      2 ≤ s.length → p ∈ s → in_overlay_paths st p uid = .ok true →
      (∀ q ∈ s, q ≠ p → in_overlay_paths st q uid = .ok false) →
      get_path dumps sha st d uid = .ok (some p)) ∧
    (∀ s, (st.uidToPath.lookup (generate_path_key sha rk uid)).getD [] = s →
      s.length ≠ 1 →
      (∀ q ∈ s, in_overlay_paths st q uid = .ok false) →
      get_path dumps sha st d uid = .ok none) ∧
    (∀ docs outDir renderedP res,
      split_manifest dumps sha st uid outDir renderedP docs = .ok res →
      d ∈ docs → get_path dumps sha st d uid = .ok none → d ∈ res.filtered) := by
  refine ⟨?_, ?_, ?_, ?_⟩
  · intro p hlist
    simp only [get_path, hk, hlist]
  · intro s p hlist hlen hp hptrue hothers
    cases s with
    | nil => cases hp
    | cons a t =>
      cases t with
      | nil => simp at hlen
      | cons b u =>
        simp only [get_path, hk, hlist]
        exact getPathGo_unique st uid (a :: b :: u) p hp hptrue hothers
  · intro s hlist hlen hall
    cases s with
    | nil =>
      simp only [get_path, hk, hlist]
      rfl
    | cons a t =>
      cases t with
      | nil => exact absurd rfl hlen
      | cons b u =>
        simp only [get_path, hk, hlist]
        exact getPathGo_none st uid (a :: b :: u) hall
  · intro docs outDir renderedP res hsp hd hnone
    rw [split_manifest_filtered dumps sha st uid outDir renderedP docs res hsp]
    refine List.mem_filter.mpr ⟨hd, ?_⟩
    simp [resolvesTo, hnone]

/-- Serialization stand-in for the C1 witness. -/
def c1Dumps : KrmDoc → String := fun _ => "X"

/-- Digest stand-in for the C1 witness. -/
def c1Sha : String → String := fun s => s

/-- Concrete annotated document for the C1 witness. -/
def c1Doc : KrmDoc := ⟨some "v1", some "ConfigMap", [("hydrator-uid", "k1")], []⟩

/-- Parser state for the C1 witness: the path key of c1Doc maps to two
candidate source paths, of which only one lies in the overlay resource
list recorded for item u. -/
def c1State : ParserState :=
  ⟨[("uid:u,resource_key:k1", [["zz", "b.yaml"], ["ns", "app", "cfg.yaml"]])],
    [("u", [["root", "overlays", "ns", "app"]])]⟩

/-- Witness for claim C1 at the two-candidate case: the candidate inside
the overlay resource list is chosen. -/
theorem claim_C1_witness :
    get_path c1Dumps c1Sha c1State c1Doc "u" = .ok (some ["ns", "app", "cfg.yaml"]) :=
  (claim_C1_split_destination_resolution c1Dumps c1Sha c1State "u" c1Doc "k1" rfl).2.1
    [["zz", "b.yaml"], ["ns", "app", "cfg.yaml"]] ["ns", "app", "cfg.yaml"]
    rfl (by decide) (by decide) rfl
    (by
      intro q hq hne
      cases hq with
      | head => rfl
      | tail _ h2 =>
        cases h2 with
        | head => exact absurd rfl hne
        | tail _ h3 => cases h3)

/-- Claim C6: resource identity is stable.  For a valid document the
identity is the digest of the canonical serialization unless a prior
identity annotation is present, in which case the annotation value is
reused; and a document annotated with its own identity (as
process_yaml_string does before emitting) keeps that identity when
processed again. -/
theorem claim_C6_identity_stable (dumps : KrmDoc → String) (sha : String → String)
    (d : KrmDoc) (hv : is_valid_object d = true) (hsha : ∀ s, sha s ≠ "") :
    (d.annots.lookup hydratorUidKey = none →
      generate_key dumps sha d = .ok (sha (dumps d))) ∧
    (∀ u, d.annots.lookup hydratorUidKey = some u → u ≠ "" →
      generate_key dumps sha d = .ok u) ∧
    (∀ k, generate_key dumps sha d = .ok k →
      generate_key dumps sha (krm_add_annot d hydratorUidKey k) = .ok k) := by
  refine ⟨?_, ?_, ?_⟩
  · intro hnone
    simp [generate_key, hv, hnone]
  · intro u hu hune
    simp [generate_key, hv, hu, hune]
  · intro k hkeq
    have hkne : k ≠ "" := by
      intro hk0
      subst hk0
      cases hu : d.annots.lookup hydratorUidKey with
      | none =>
        simp [generate_key, hv, hu] at hkeq
        exact hsha (dumps d) hkeq
      | some u =>
        by_cases hue : u = ""
        · subst hue
          simp [generate_key, hv, hu] at hkeq
          exact hsha (dumps d) hkeq
        · simp [generate_key, hv, hu, hue] at hkeq
    have hvalid : is_valid_object (krm_add_annot d hydratorUidKey k) = true := hv
    have hlook : (krm_add_annot d hydratorUidKey k).annots.lookup hydratorUidKey = some k :=
      dictSet_lookup_self hydratorUidKey k d.annots
    simp [generate_key, hvalid, hlook, hkne]

/-- Witness for claim C6: a document annotated with its freshly derived
identity keeps that identity on re-processing. -/
theorem claim_C6_witness :
    generate_key (fun _ => "doc") (fun _ => "k")
      (krm_add_annot ⟨some "v1", some "ConfigMap", [], []⟩ hydratorUidKey "k") =
      .ok "k" :=
  (claim_C6_identity_stable (fun _ => "doc") (fun _ => "k")
    ⟨some "v1", some "ConfigMap", [], []⟩ rfl (fun _ h => by simp at h)).2.2 "k" rfl
